import Mathlib

/-!
Verification of `sag_to_cor_hor.py`: a program that re-slices a stack of
sagittal 2D image planes into coronal (AP) and horizontal (DV) stacks.

Shallow embedding conventions:
* a decoded 2D image (`numpy` array of shape (h, w)) is a `Plane`:
  a list of rows, each row a list of pixels (pixels as `Int`);
* the output directory is a `Store`: a map from (direction, output index)
  to an optionally present plane (a present key models an existing file);
* the source stack is a `List (Option Plane)`: element `i` is the decoded
  image of the `i`-th sorted source file, `none` modelling a file whose
  read fails or whose contents are not a consistent 2D plane;
* numpy slice assignments `a[:, j] = v` and `a[i, :] = v` are modelled
  exactly (matching lengths required; the degenerate length-1 numpy
  broadcast is not modelled, it never occurs for the stacks considered);
* CLI start/end indices are `Int` (they may be negative).
-/

/-! ## Planes -/

abbrev Plane := List (List Int)

/-- Pixel of `p` at row `r`, column `c` (if present). -/
def entry (p : Plane) (r c : Nat) : Option Int :=
  (p.get? r).bind (fun row => row.get? c)

/-- Predicate: `p` is a rectangular `h × w` array. -/
def rect (h w : Nat) (p : Plane) : Prop :=
  p.length = h ∧ ∀ row ∈ p, row.length = w

instance (h w : Nat) (p : Plane) : Decidable (rect h w p) := by
  unfold rect; infer_instance

/-- The numpy call `np.zeros((h, w))`. -/
def zerosPlane (h w : Nat) : Plane :=
  List.replicate h (List.replicate w 0)

/-- numpy `p[iz, :]` — row extraction (IndexError when out of range). -/
def getRow (iz : Nat) (p : Plane) : Option (List Int) :=
  p.get? iz

/-- numpy `p[:, iz]` — column extraction (IndexError when out of range
for some row). -/
def getCol (iz : Nat) : Plane → Option (List Int)
  | [] => some []
  | row :: rs =>
    match row.get? iz, getCol iz rs with
    | some x, some xs => some (x :: xs)
    | _, _ => none

/-- numpy `p[i, :] = v` — row assignment; requires `i` in range and `v`
of the row's length. -/
def setRow (i : Nat) (v : List Int) (p : Plane) : Option Plane :=
  match p.get? i with
  | some row => if v.length = row.length then some (p.set i v) else none
  | none => none

/-- numpy `p[:, j] = v` — column assignment; requires `j` in range for
every row and `v` of the column's length. -/
def setCol (j : Nat) : Plane → List Int → Option Plane
  | [], [] => some []
  | row :: rs, x :: xs =>
    if j < row.length then
      match setCol j rs xs with
      | some rs2 => some (row.set j x :: rs2)
      | none => none
    else none
  | [], _ :: _ => none
  | _ :: _, [] => none

/-- Pixel `(r, c)` of source plane `i` of a stack. -/
def srcEntry (srcP : List Plane) (i r c : Nat) : Option Int :=
  (srcP.get? i).bind (fun p => entry p r c)

/-! ## The output store -/

inductive Dir where
  | AP
  | DV
deriving DecidableEq

/-- The output directory tree: one optional file per (direction, index),
`AP/AP-%05d.tif` and `DV/DV-%05d.tif`. -/
def Store := Dir → Nat → Option Plane

def emptyStore : Store := fun _ _ => none

/-- Saving (`io.imsave`) an output plane: (over)writes exactly one key. -/
def updateStore (s : Store) (d : Dir) (iz : Nat) (p : Plane) : Store :=
  fun d2 iz2 => if d2 = d ∧ iz2 = iz then some p else s d2 iz2

/-! ## Errors -/

inductive Err where
  /-- Indexing `img_list[0]` raises on an empty list (the spec's EmptyStackError). -/
  | emptyStack
  /-- Reading (`io.imread`) the probe image fails. -/
  | probeReadFail
  /-- Unpacking `ny, nx = probe_img.shape` fails: the probe is not 2-dimensional. -/
  | probeDims
  /-- reading source image `i` fails (unreadable, or not a 2D plane). -/
  | readFail (i : Nat)
  /-- numpy slice extraction/assignment for source `i` fails
  (inconsistent shape — the spec's InconsistentShapeError). -/
  | shapeErr (i : Nat)
deriving DecidableEq

/-! ## The assembly loops of generateAP / generateDV

`assembleAP iz i src acc` is the loop
`for i_raw, img_raw_fn in enumerate(img_list): img_AP_i[:, i_raw] = img_raw[:, iz]`
started at source index `i` with accumulator plane `acc`. -/

def assembleAP (iz : Nat) : Nat → List (Option Plane) → Plane → Except Err Plane
  | _, [], acc => .ok acc
  | i, none :: _, _ => .error (.readFail i)
  | i, some img :: rest, acc =>
    match getCol iz img with
    | none => .error (.shapeErr i)
    | some col =>
      match setCol i acc col with
      | none => .error (.shapeErr i)
      | some acc2 => assembleAP iz (i + 1) rest acc2

def assembleDV (iz : Nat) : Nat → List (Option Plane) → Plane → Except Err Plane
  | _, [], acc => .ok acc
  | i, none :: _, _ => .error (.readFail i)
  | i, some img :: rest, acc =>
    match getRow iz img with
    | none => .error (.shapeErr i)
    | some row =>
      match setRow i row acc with
      | none => .error (.shapeErr i)
      | some acc2 => assembleDV iz (i + 1) rest acc2

/-- The plane generateAP starts from: the existing output file if present,
else `np.zeros((ny_AP, nx_AP)) = np.zeros((ny, nz))`. -/
def apInit (stored : Option Plane) (ny n : Nat) : Plane :=
  stored.getD (zerosPlane ny n)

/-- The plane generateDV starts from: the existing output file if present,
else `np.zeros((ny_DV, nx_DV)) = np.zeros((nz, nx))`. -/
def dvInit (stored : Option Plane) (nx n : Nat) : Plane :=
  stored.getD (zerosPlane n nx)

/-- The call `generateAP(iz)`: load-or-zero the output plane, fill every column
from the source stack, then save. An exception leaves the store
untouched (the save is the last step). `ny` is the probed height. -/
def generateAP (src : List (Option Plane)) (ny : Nat) (store : Store) (iz : Nat) :
    Store × Option Err :=
  match assembleAP iz 0 src (apInit (store Dir.AP iz) ny src.length) with
  | .ok p => (updateStore store Dir.AP iz p, none)
  | .error e => (store, some e)

/-- The call `generateDV(iz)`: load-or-zero the output plane, fill every row
from the source stack, then save. `nx` is the probed width. -/
def generateDV (src : List (Option Plane)) (nx : Nat) (store : Store) (iz : Nat) :
    Store × Option Err :=
  match assembleDV iz 0 src (dvInit (store Dir.DV iz) nx src.length) with
  | .ok p => (updateStore store Dir.DV iz p, none)
  | .error e => (store, some e)

/-! ## Range control and the main dispatch -/

/-- Python line `if starti > endi: starti, endi = endi, starti`. -/
def swapRange (s e : Int) : Int × Int :=
  if s > e then (e, s) else (s, e)

/-- Python line `if starti < 0: starti = 0`. -/
def clampLow (s : Int) : Int :=
  if s < 0 then 0 else s

/-- Python line `if endi > maxIz: endi = maxIz`. -/
def clampHigh (e maxIz : Int) : Int :=
  if e > maxIz then maxIz else e

/-- The loop range `xrange(s, e + 1)` (empty when `e < s`). -/
def rangeList (s e : Int) : List Int :=
  (List.range (e + 1 - s).toNat).map (fun (k : Nat) => s + (k : Int))

/-- The generation loop: run `gen` on each index in turn; an unhandled
exception aborts the remainder of the loop. -/
def runGen (gen : Store → Nat → Store × Option Err) :
    Store → List Nat → Store × Option Err
  | store, [] => (store, none)
  | store, iz :: rest =>
    match gen store iz with
    | (s2, none) => runGen gen s2 rest
    | (s2, some e) => (s2, some e)

/-- The `direction == 'AP'` branch: swap, clamp to `[0, nz_AP - 1]`
(`nz_AP = nx`), loop `generateAP`. -/
def runAP (src : List (Option Plane)) (ny nx : Nat) (store : Store)
    (starti endi : Int) : Store × Option Err :=
  let se := swapRange starti endi
  let s := clampLow se.1
  let e := clampHigh se.2 ((nx : Int) - 1)
  runGen (generateAP src ny) store ((rangeList s e).map Int.toNat)

/-- The `direction == 'DV'` branch: swap, clamp to `[0, nz_DV - 1]`
(`nz_DV = ny`), loop `generateDV`. -/
def runDV (src : List (Option Plane)) (ny nx : Nat) (store : Store)
    (starti endi : Int) : Store × Option Err :=
  let se := swapRange starti endi
  let s := clampLow se.1
  let e := clampHigh se.2 ((ny : Int) - 1)
  runGen (generateDV src nx) store ((rangeList s e).map Int.toNat)

/-! ## The probe and the whole pipeline -/

/-- A decoded image of arbitrary dimensionality (`numpy` ndarray). -/
inductive NDArr where
  | scalar (v : Int)
  | arr (elems : List NDArr)

/-- numpy `.shape` of a (well-formed, rectangular) nested array. -/
def ndshape : NDArr → List Nat
  | .scalar _ => []
  | .arr [] => [0]
  | .arr (x :: xs) => (xs.length + 1) :: ndshape x

def toRowInts : NDArr → Option (List Int)
  | .arr es =>
    es.mapM (fun e => match e with | .scalar v => some v | .arr _ => none)
  | .scalar _ => none

/-- View a 2-dimensional ndarray as a `Plane`. -/
def toPlane : NDArr → Option Plane
  | .arr rows => rows.mapM toRowInts
  | .scalar _ => none

/-- The module run after argument parsing and file listing/sorting:
`reads` is the per-file outcome of `io.imread` over the sorted list.
Probe `reads[0]` for `(ny, nx)` (`img_list[0]` raises on an empty list;
shape destructuring requires exactly two dimensions), then dispatch on
the direction. The store is returned unchanged on an abort before any
generation. -/
def mainRun (reads : List (Option NDArr)) (d : Dir) (starti endi : Int)
    (store : Store) : Store × Option Err :=
  match reads with
  | [] => (store, some .emptyStack)
  | r0 :: _ =>
    match r0 with
    | none => (store, some .probeReadFail)
    | some img =>
      match ndshape img with
      | [ny, nx] =>
        let src := reads.map (fun r => r.bind toPlane)
        match d with
        | .AP => runAP src ny nx store starti endi
        | .DV => runDV src ny nx store starti endi
      | _ => (store, some .probeDims)

/-! ## File listing, the sort key, and the sort -/

/-- Decimal value of a digit string (`int(s)`). -/
def digitsVal (l : List Char) : Nat :=
  l.foldl (fun a c => 10 * a + (c.toNat - 48)) 0

/-- The call `re.findall(r'(\d+)[.]', s)`, first capture: the leftmost maximal
digit run immediately followed by a dot, if any. -/
def findSerial : List Char → Option Nat
  | [] => none
  | c :: rest =>
    if c.isDigit then
      match rest.dropWhile Char.isDigit with
      | '.' :: _ => some (digitsVal (c :: rest.takeWhile Char.isDigit))
      | _ => findSerial rest
    else findSerial rest

/-- The key `catchSerial`: the numeric serial if the regex matches, else the raw
string (a Python-2 int-or-str sort key). -/
def catchSerial (s : List Char) : Sum Nat (List Char) :=
  match findSerial s with
  | some n => Sum.inl n
  | none => Sum.inr s

/-- Does `[.][tT][iI][fF]` match here? -/
def dotTifHere : List Char → Bool
  | '.' :: t :: i :: f :: _ =>
    (t = 't' || t = 'T') && (i = 'i' || i = 'I') && (f = 'f' || f = 'F')
  | _ => false

/-- The search `re.search(r'\d+[.][tT][iI][fF]', s)` succeeds: some digit run
immediately followed by `.tif` (case-insensitive). -/
def hasTifPattern : List Char → Bool
  | [] => false
  | c :: rest =>
    (c.isDigit && dotTifHere (rest.dropWhile Char.isDigit)) || hasTifPattern rest

/-- Python 2 byte-wise string comparison (`a <= b`). -/
def lexLe : List Char → List Char → Bool
  | [], _ => true
  | _ :: _, [] => false
  | a :: as, b :: bs =>
    if a.toNat < b.toNat then true
    else if b.toNat < a.toNat then false
    else lexLe as bs

/-- Python 2 ordering on int-or-str sort keys: ints compare numerically,
strings byte-wise, and every int is smaller than every string
(Py2 orders mixed types by type name, and "int" < "str"). -/
def pyKeyLe : Sum Nat (List Char) → Sum Nat (List Char) → Bool
  | .inl a, .inl b => a ≤ b
  | .inl _, .inr _ => true
  | .inr _, .inl _ => false
  | .inr a, .inr b => lexLe a b

/-- The sort `img_list.sort(key=catchSerial)`: a stable sort by the key.
(Python's sort is stable; a stable sort by a total preorder has a unique
result, so insertion sort computes the same list.) -/
def sortImgs (l : List (List Char)) : List (List Char) :=
  List.insertionSort (fun a b => pyKeyLe (catchSerial a) (catchSerial b) = true) l

/-- The listing filter of `img_list`. -/
def imgFilter (names : List (List Char)) : List (List Char) :=
  names.filter hasTifPattern

/-- The list `img_list` after listing, filtering and sorting. -/
def imgListOf (names : List (List Char)) : List (List Char) :=
  sortImgs (imgFilter names)


/-- Modelled from the claim wording of C4: an endpoint clamped INTO the
interval `[0, maxIz]`. -/
def claimClampBoth (x maxIz : Int) : Int :=
  max 0 (min x maxIz)

/-- Modelled from the claim wording of C4: swap the endpoints if
inverted, then run over the range with BOTH endpoints clamped into
`[0, maxIz]` (AP direction). -/
def claimRunAP (src : List (Option Plane)) (ny nx : Nat) (store : Store)
    (starti endi : Int) : Store × Option Err :=
  let se := swapRange starti endi
  let s := claimClampBoth se.1 ((nx : Int) - 1)
  let e := claimClampBoth se.2 ((nx : Int) - 1)
  runGen (generateAP src ny) store ((rangeList s e).map Int.toNat)

/-- Modelled from the claim wording of C4: swap the endpoints if
inverted, then run over the range with BOTH endpoints clamped into
`[0, maxIz]` (DV direction, `maxIz = ny - 1`). -/
def claimRunDV (src : List (Option Plane)) (ny nx : Nat) (store : Store)
    (starti endi : Int) : Store × Option Err :=
  let se := swapRange starti endi
  let s := claimClampBoth se.1 ((ny : Int) - 1)
  let e := claimClampBoth se.2 ((ny : Int) - 1)
  runGen (generateDV src nx) store ((rangeList s e).map Int.toNat)

/-- Modelled from the claim wording of C5: the first (maximal) integer
run found anywhere in the name, regardless of what follows it. -/
def firstIntOf : List Char → Option Nat
  | [] => none
  | c :: rest =>
    if c.isDigit then some (digitsVal (c :: rest.takeWhile Char.isDigit))
    else firstIntOf rest

/-- Modelled from the claim wording of C5: sort key = numeric value of
the first integer found in the name, raw string when there is none. -/
def claimFirstIntKey (s : List Char) : Sum Nat (List Char) :=
  match firstIntOf s with
  | some n => Sum.inl n
  | none => Sum.inr s

example : getCol 0 [[5, 7]] = some [5] := by decide
example : setCol 0 (zerosPlane 1 1) [5] = some [[5]] := by decide
example : generateAP [some [[5, 7]]] 1 emptyStore 0
    = (updateStore emptyStore Dir.AP 0 [[5]], none) := rfl
example : catchSerial ("img12.tif").toList = Sum.inl 12 := by decide
example : hasTifPattern ("a9.TIF").toList = true := by decide
example : sortImgs [("9x2.tif").toList, ("3x5.tif").toList]
    = [("9x2.tif").toList, ("3x5.tif").toList] := by decide

/-! ## Helper lemmas: planes -/

lemma zerosPlane_length (h w : Nat) : (zerosPlane h w).length = h := by
  simp [zerosPlane]

lemma zerosPlane_rows (h w : Nat) : ∀ row ∈ zerosPlane h w, row.length = w := by
  intro row hrow
  rcases List.eq_of_mem_replicate hrow with rfl
  simp

lemma entry_cons_succ (row : List Int) (rs : Plane) (r c : Nat) :
    entry (row :: rs) (r + 1) c = entry rs r c := rfl

lemma entry_cons_zero (row : List Int) (rs : Plane) (c : Nat) :
    entry (row :: rs) 0 c = row.get? c := rfl

lemma entry_nil (r c : Nat) : entry ([] : Plane) r c = none := by
  cases r <;> rfl

lemma entry_of_len_le {p : Plane} {r : Nat} (hr : p.length ≤ r) (c : Nat) :
    entry p r c = none := by
  unfold entry
  rw [List.get?_eq_none.mpr hr]
  rfl

/-- Planes with equal lengths and equal pixels everywhere are equal. -/
lemma planeExt {p q : Plane} (hlen : q.length = p.length)
    (he : ∀ r c, entry q r c = entry p r c) : q = p := by
  apply List.ext
  intro n
  rcases hq : q.get? n with _ | rowq
  · rw [List.get?_eq_none] at hq
    rw [eq_comm, List.get?_eq_none]
    omega
  · have hn : n < q.length := by
      by_contra hcon
      rw [List.get?_eq_none.mpr (by omega)] at hq
      exact Option.noConfusion hq
    rcases hp : p.get? n with _ | rowp
    · rw [List.get?_eq_none] at hp
      omega
    · congr 1
      apply List.ext
      intro c
      have h1 := he n c
      unfold entry at h1
      rw [hq, hp] at h1
      exact h1

/-! getCol -/

lemma getCol_eq_some (iz : Nat) :
    ∀ (p : Plane) (col : List Int), getCol iz p = some col →
      col.length = p.length ∧ ∀ r, col.get? r = entry p r iz := by
  intro p
  induction p with
  | nil =>
    intro col hcol
    simp [getCol] at hcol
    subst hcol
    exact ⟨rfl, fun r => by rw [entry_nil]; cases r <;> rfl⟩
  | cons row rs ih =>
    intro col hcol
    unfold getCol at hcol
    rcases hx : row.get? iz with _ | x <;> rw [hx] at hcol
    · exact absurd hcol (by simp)
    · rcases hxs : getCol iz rs with _ | xs <;> rw [hxs] at hcol
      · exact absurd hcol (by simp)
      · simp only [Option.some.injEq] at hcol
        subst hcol
        rcases ih xs hxs with ⟨hl, hget⟩
        refine ⟨by simp [hl], fun r => ?_⟩
        cases r with
        | zero => rw [entry_cons_zero, hx]; rfl
        | succ r => rw [entry_cons_succ]; exact hget r

lemma getCol_ok (iz w : Nat) (hiz : iz < w) :
    ∀ (p : Plane), (∀ row ∈ p, row.length = w) →
      ∃ col, getCol iz p = some col := by
  intro p
  induction p with
  | nil => intro _; exact ⟨[], rfl⟩
  | cons row rs ih =>
    intro hrows
    have hrow : row.length = w := hrows row (by simp)
    have hx : ∃ x, row.get? iz = some x := by
      rcases hy : row.get? iz with _ | y
      · rw [List.get?_eq_none] at hy; omega
      · exact ⟨y, rfl⟩
    rcases hx with ⟨x, hx⟩
    rcases ih (fun r hr => hrows r (by simp [hr])) with ⟨xs, hxs⟩
    exact ⟨x :: xs, by unfold getCol; rw [hx, hxs]⟩

/-! setCol -/

lemma setCol_eq_some (j : Nat) :
    ∀ (p : Plane) (v : List Int) (q : Plane), setCol j p v = some q →
      q.length = p.length ∧ v.length = p.length ∧
      (∀ row ∈ p, j < row.length) ∧
      (∀ k, (q.get? k).map List.length = (p.get? k).map List.length) ∧
      (∀ r c, entry q r c = if c = j then v.get? r else entry p r c) := by
  intro p
  induction p with
  | nil =>
    intro v q hq
    cases v with
    | nil =>
      simp only [setCol, Option.some.injEq] at hq
      subst hq
      refine ⟨rfl, rfl, by simp, fun k => rfl, fun r c => ?_⟩
      rw [entry_nil]
      by_cases hc : c = j <;> simp [hc]
    | cons x xs => exact absurd hq (by simp [setCol])
  | cons row rs ih =>
    intro v q hq
    cases v with
    | nil => exact absurd hq (by simp [setCol])
    | cons x xs =>
      unfold setCol at hq
      by_cases hj : j < row.length
      · rw [if_pos hj] at hq
        rcases hrec : setCol j rs xs with _ | rs2 <;> rw [hrec] at hq
        · exact absurd hq (by simp)
        · simp only [Option.some.injEq] at hq
          subst hq
          rcases ih xs rs2 hrec with ⟨hl, hvl, hrows, hlens, hent⟩
          refine ⟨by simp [hl], by simp [hvl], ?_, ?_, ?_⟩
          · intro r hr
            rcases List.mem_cons.mp hr with rfl | hr2
            · exact hj
            · exact hrows r hr2
          · intro k
            cases k with
            | zero => simp
            | succ k => exact hlens k
          · intro r c
            cases r with
            | zero =>
              rw [entry_cons_zero, entry_cons_zero, List.get?_set]
              by_cases hc : j = c
              · subst hc
                rw [if_pos rfl, if_pos rfl]
                rcases hy : row.get? j with _ | y
                · rw [List.get?_eq_none] at hy; omega
                · rfl
              · rw [if_neg hc, if_neg (fun hcon => hc hcon.symm)]
            | succ r =>
              rw [entry_cons_succ, entry_cons_succ, hent r c]
              by_cases hc : c = j <;> simp [hc]
      · rw [if_neg hj] at hq
        exact absurd hq (by simp)

lemma setCol_ok (j : Nat) :
    ∀ (p : Plane) (v : List Int), v.length = p.length →
      (∀ row ∈ p, j < row.length) → ∃ q, setCol j p v = some q := by
  intro p
  induction p with
  | nil =>
    intro v hv _
    cases v with
    | nil => exact ⟨[], rfl⟩
    | cons x xs => simp at hv
  | cons row rs ih =>
    intro v hv hrows
    cases v with
    | nil => simp at hv
    | cons x xs =>
      rcases ih xs (by simpa using hv) (fun r hr => hrows r (by simp [hr]))
        with ⟨rs2, hrs2⟩
      refine ⟨row.set j x :: rs2, ?_⟩
      unfold setCol
      rw [if_pos (hrows row (by simp)), hrs2]

/-! setRow -/

lemma setRow_eq_some {i : Nat} {v : List Int} {p q : Plane}
    (hq : setRow i v p = some q) :
    ∃ row, p.get? i = some row ∧ v.length = row.length ∧ q = p.set i v := by
  unfold setRow at hq
  split at hq
  case _ row hrow =>
    split at hq
    case _ hl =>
      rw [Option.some.injEq] at hq
      exact ⟨row, hrow, hl, hq.symm⟩
    case _ => exact absurd hq (by simp)
  case _ => exact absurd hq (by simp)

lemma setRow_ok {i : Nat} {v : List Int} {p : Plane} {row : List Int}
    (hrow : p.get? i = some row) (hl : v.length = row.length) :
    setRow i v p = some (p.set i v) := by
  unfold setRow
  rw [hrow]
  show (if v.length = row.length then some (p.set i v) else none) = some (p.set i v)
  rw [if_pos hl]

lemma entry_set {p : Plane} {i : Nat} {v : List Int} (hi : i < p.length) :
    ∀ r c, entry (p.set i v) r c = if r = i then v.get? c else entry p r c := by
  intro r c
  unfold entry
  rw [List.get?_set]
  by_cases hr : i = r
  · subst hr
    rw [if_pos rfl, if_pos rfl]
    rcases hy : p.get? i with _ | y
    · rw [List.get?_eq_none] at hy; omega
    · rfl
  · rw [if_neg hr, if_neg (fun hcon => hr hcon.symm)]

/-- Transfer a property of all row lengths across row-length-preserving
plane surgery. -/
lemma rowLen_mem {p q : Plane}
    (hlens : ∀ k, (q.get? k).map List.length = (p.get? k).map List.length)
    {P : Nat → Prop} (hp : ∀ row ∈ p, P row.length) :
    ∀ row ∈ q, P row.length := by
  intro row hrow
  rcases List.mem_iff_get?.mp hrow with ⟨k, hk⟩
  have := hlens k
  rw [hk] at this
  rcases hpk : p.get? k with _ | rowp <;> rw [hpk] at this
  · exact absurd this (by simp)
  · simp only [Option.map_some'] at this
    rw [Option.some.injEq] at this
    rw [this]
    exact hp rowp (List.get?_mem hpk)

/-! ## Helper lemmas: the AP assembly loop -/

lemma srcEntry_cons_succ (p : Plane) (rest : List Plane) (k r c : Nat) :
    srcEntry (p :: rest) (k + 1) r c = srcEntry rest k r c := rfl

lemma srcEntry_cons_zero (p : Plane) (rest : List Plane) (r c : Nat) :
    srcEntry (p :: rest) 0 r c = entry p r c := rfl

/-- Success and output description of the AP loop over a stack of
readable rectangular `h × w` planes carried by a tall-enough
accumulator. -/
lemma assembleAP_ok (iz h w : Nat) (hiz : iz < w) :
    ∀ (srcP : List Plane) (i0 : Nat) (acc : Plane),
      (∀ p ∈ srcP, rect h w p) →
      acc.length = h → (∀ row ∈ acc, i0 + srcP.length ≤ row.length) →
      ∃ out, assembleAP iz i0 (srcP.map some) acc = .ok out ∧
        out.length = h ∧
        (∀ k, (out.get? k).map List.length = (acc.get? k).map List.length) ∧
        (∀ r c, entry out r c =
          if i0 ≤ c ∧ c < i0 + srcP.length then srcEntry srcP (c - i0) r iz
          else entry acc r c) := by
  intro srcP
  induction srcP with
  | nil =>
    intro i0 acc _ hacc _
    refine ⟨acc, rfl, hacc, fun k => rfl, fun r c => ?_⟩
    rw [if_neg (by simp)]
  | cons p rest ih =>
    intro i0 acc hrect haccLen haccW
    have hp : rect h w p := hrect p (by simp)
    rcases getCol_ok iz w hiz p hp.2 with ⟨col, hcol⟩
    rcases getCol_eq_some iz p col hcol with ⟨hcolLen, hcolGet⟩
    have hcolLen2 : col.length = acc.length := by rw [hcolLen, hp.1, haccLen]
    have hjlt : ∀ row ∈ acc, i0 < row.length := by
      intro row hrow
      have := haccW row hrow
      simp at this
      omega
    rcases setCol_ok i0 acc col hcolLen2 hjlt with ⟨acc2, hacc2⟩
    rcases setCol_eq_some i0 acc col acc2 hacc2 with ⟨hq, _, _, hlens, hent⟩
    rcases ih (i0 + 1) acc2 (fun q hq2 => hrect q (by simp [hq2]))
        (hq.trans haccLen)
        (rowLen_mem hlens (P := fun n => i0 + 1 + rest.length ≤ n)
          (fun row hrow => by have := haccW row hrow; simp at this; omega))
      with ⟨out, hrun, houtLen, houtLens, houtEnt⟩
    refine ⟨out, ?_, houtLen, ?_, ?_⟩
    · simp only [List.map_cons, assembleAP, hcol, hacc2]
      exact hrun
    · intro k
      rw [houtLens k, hlens k]
    · intro r c
      rw [houtEnt r c, hent r c]
      by_cases h1 : c = i0
      · subst h1
        rw [if_neg (by omega), if_pos rfl, if_pos (by simp)]
        rw [Nat.sub_self, srcEntry_cons_zero, hcolGet r]
      · by_cases h2 : i0 + 1 ≤ c ∧ c < i0 + 1 + rest.length
        · rw [if_pos h2, if_pos (by simp; omega)]
          rw [show c - i0 = (c - (i0 + 1)) + 1 by omega, srcEntry_cons_succ]
        · rw [if_neg h2, if_neg h1, if_neg (by simp; omega)]

/-- Structural description of any successful AP loop run: the length and
row lengths of the accumulator are preserved, columns outside the
visited band are untouched, and within the band column `i0 + j` holds
column `iz` of source plane `j`. -/
lemma assembleAP_out (iz : Nat) :
    ∀ (src : List (Option Plane)) (i0 : Nat) (acc out : Plane),
      assembleAP iz i0 src acc = .ok out →
      out.length = acc.length ∧
      (∀ k, (out.get? k).map List.length = (acc.get? k).map List.length) ∧
      (∀ r c, c < i0 ∨ i0 + src.length ≤ c → entry out r c = entry acc r c) ∧
      (∀ j, j < src.length → ∃ p col, src.get? j = some (some p) ∧
        getCol iz p = some col ∧ ∀ r, entry out r (i0 + j) = col.get? r) := by
  intro src
  induction src with
  | nil =>
    intro i0 acc out h
    have hout : acc = out := by
      simpa [assembleAP] using h
    subst hout
    exact ⟨rfl, fun k => rfl, fun r c _ => rfl, fun j hj => absurd hj (by simp)⟩
  | cons o rest ih =>
    intro i0 acc out h
    cases o with
    | none => exact absurd h (by simp [assembleAP])
    | some p =>
      unfold assembleAP at h
      split at h
      · exact absurd h (by simp)
      rename_i col hcol
      split at h
      · exact absurd h (by simp)
      rename_i acc2 hacc2
      rcases setCol_eq_some i0 acc col acc2 hacc2 with ⟨hl2, hvl, hrows, hlens2, hent2⟩
      rcases ih (i0 + 1) acc2 out h with ⟨hoLen, hoLens, hoFrame, hoBand⟩
      refine ⟨hoLen.trans hl2, ?_, ?_, ?_⟩
      · intro k
        rw [hoLens k, hlens2 k]
      · intro r c hc
        have hcne : ¬ c = i0 := by simp at hc; omega
        rw [hoFrame r c (by simp at hc ⊢; omega), hent2 r c, if_neg hcne]
      · intro j hj
        cases j with
        | zero =>
          refine ⟨p, col, rfl, hcol, fun r => ?_⟩
          rw [Nat.add_zero, hoFrame r i0 (Or.inl (by omega)), hent2 r i0,
            if_pos rfl]
        | succ j2 =>
          rcases hoBand j2 (by simp at hj; omega) with ⟨p2, col2, hg, hc2, he2⟩
          refine ⟨p2, col2, hg, hc2, fun r => ?_⟩
          rw [show i0 + (j2 + 1) = i0 + 1 + j2 by omega]
          exact he2 r

/-- Re-running the AP loop on its own output reproduces it. -/
lemma assembleAP_idem (iz : Nat) :
    ∀ (src : List (Option Plane)) (i0 : Nat) (acc out : Plane),
      assembleAP iz i0 src acc = .ok out →
      assembleAP iz i0 src out = .ok out := by
  intro src
  induction src with
  | nil => intro i0 acc out _; rfl
  | cons o rest ih =>
    intro i0 acc out h
    cases o with
    | none => exact absurd h (by simp [assembleAP])
    | some p =>
      unfold assembleAP at h
      split at h
      · exact absurd h (by simp)
      rename_i col hcol
      split at h
      · exact absurd h (by simp)
      rename_i acc2 hacc2
      rcases setCol_eq_some i0 acc col acc2 hacc2 with ⟨hl2, hvl, hrows, hlens2, hent2⟩
      rcases assembleAP_out iz rest (i0 + 1) acc2 out h with ⟨hoLen, hoLens, hoFrame, _⟩
      have hcolOut : ∀ r, entry out r i0 = col.get? r := by
        intro r
        rw [hoFrame r i0 (Or.inl (by omega)), hent2 r i0, if_pos rfl]
      have hlenOut : col.length = out.length := by
        rw [hoLen, hl2, hvl]
      have hrowsOut : ∀ row ∈ out, i0 < row.length :=
        rowLen_mem hoLens (rowLen_mem hlens2 hrows)
      rcases setCol_ok i0 out col hlenOut hrowsOut with ⟨q, hq⟩
      rcases setCol_eq_some i0 out col q hq with ⟨hql, _, _, _, hqe⟩
      have hqout : q = out := by
        refine planeExt hql (fun r c => ?_)
        rw [hqe r c]
        by_cases hc : c = i0
        · subst hc
          rw [if_pos rfl, hcolOut r]
        · rw [if_neg hc]
      rw [hqout] at hq
      simp only [assembleAP, hcol, hq]
      exact ih (i0 + 1) acc2 out h

/-! ## Helper lemmas: the DV assembly loop -/

lemma set_get?_self {l : List (List Int)} {i : Nat} {a : List Int}
    (h : l.get? i = some a) : l.set i a = l := by
  apply List.ext
  intro n
  rw [List.get?_set]
  by_cases hn : i = n
  · subst hn
    rw [if_pos rfl, h]
    rfl
  · rw [if_neg hn]

lemma mem_of_mem_set {l : List (List Int)} {i : Nat} {a row : List Int}
    (h : row ∈ l.set i a) : row ∈ l ∨ row = a := by
  rcases List.mem_iff_get?.mp h with ⟨k, hk⟩
  rw [List.get?_set] at hk
  by_cases hik : i = k
  · rw [if_pos hik] at hk
    rcases hg : l.get? k with _ | row2 <;> rw [hg] at hk
    · exact absurd hk (by simp)
    · have hk2 : some a = some row := hk
      rw [Option.some.injEq] at hk2
      exact Or.inr hk2.symm
  · rw [if_neg hik] at hk
    exact Or.inl (List.get?_mem hk)

/-- Success and output description of the DV loop over a stack of
readable rectangular `h × w` planes carried by a wide-enough
accumulator. -/
lemma assembleDV_ok (iz h w : Nat) (hiz : iz < h) :
    ∀ (srcP : List Plane) (i0 : Nat) (acc : Plane),
      (∀ p ∈ srcP, rect h w p) →
      (∀ row ∈ acc, row.length = w) → i0 + srcP.length ≤ acc.length →
      ∃ out, assembleDV iz i0 (srcP.map some) acc = .ok out ∧
        out.length = acc.length ∧
        (∀ row ∈ out, row.length = w) ∧
        (∀ r c, entry out r c =
          if i0 ≤ r ∧ r < i0 + srcP.length then srcEntry srcP (r - i0) iz c
          else entry acc r c) := by
  intro srcP
  induction srcP with
  | nil =>
    intro i0 acc _ haccW _
    refine ⟨acc, rfl, rfl, haccW, fun r c => ?_⟩
    rw [if_neg (by simp)]
  | cons p rest ih =>
    intro i0 acc hrect haccW haccLen
    have hp : rect h w p := hrect p (by simp)
    have hrowp : ∃ rowp, p.get? iz = some rowp := by
      have hpl := hp.1
      rcases hy : p.get? iz with _ | y
      · rw [List.get?_eq_none] at hy
        omega
      · exact ⟨y, rfl⟩
    rcases hrowp with ⟨rowp, hrowp⟩
    have hrowpW : rowp.length = w := hp.2 rowp (List.get?_mem hrowp)
    have hrowpE : ∀ c, rowp.get? c = entry p iz c := by
      intro c
      unfold entry
      rw [hrowp]
      rfl
    have hi0 : i0 < acc.length := by simp at haccLen; omega
    have hrowAcc : ∃ rowAcc, acc.get? i0 = some rowAcc := by
      rcases hy : acc.get? i0 with _ | y
      · rw [List.get?_eq_none] at hy
        omega
      · exact ⟨y, rfl⟩
    rcases hrowAcc with ⟨rowAcc, hrowAcc⟩
    have hset : setRow i0 rowp acc = some (acc.set i0 rowp) :=
      setRow_ok hrowAcc
        (by rw [hrowpW, haccW rowAcc (List.get?_mem hrowAcc)])
    have haccW2 : ∀ row ∈ acc.set i0 rowp, row.length = w := by
      intro row hrow
      rcases mem_of_mem_set hrow with hrow2 | rfl
      · exact haccW row hrow2
      · exact hrowpW
    rcases ih (i0 + 1) (acc.set i0 rowp)
        (fun q hq2 => hrect q (by simp [hq2])) haccW2
        (by simp at haccLen ⊢; omega)
      with ⟨out, hrun, houtLen, houtW, houtEnt⟩
    refine ⟨out, ?_, by rw [houtLen, List.length_set], houtW, ?_⟩
    · simp only [List.map_cons, assembleDV, getRow, hrowp, hset]
      exact hrun
    · intro r c
      rw [houtEnt r c, entry_set hi0 r c]
      by_cases h1 : r = i0
      · subst h1
        rw [if_neg (by omega), if_pos rfl, if_pos (by simp)]
        rw [Nat.sub_self, srcEntry_cons_zero, hrowpE c]
      · by_cases h2 : i0 + 1 ≤ r ∧ r < i0 + 1 + rest.length
        · rw [if_pos h2, if_pos (by simp; omega)]
          rw [show r - i0 = (r - (i0 + 1)) + 1 by omega, srcEntry_cons_succ]
        · rw [if_neg h2, if_neg h1, if_neg (by simp; omega)]

/-- Structural description of any successful DV loop run: rows outside
the visited band are untouched, and row `i0 + j` is row `iz` of source
plane `j`. -/
lemma assembleDV_out (iz : Nat) :
    ∀ (src : List (Option Plane)) (i0 : Nat) (acc out : Plane),
      assembleDV iz i0 src acc = .ok out →
      out.length = acc.length ∧
      (∀ r, r < i0 ∨ i0 + src.length ≤ r → out.get? r = acc.get? r) ∧
      (∀ j, j < src.length → ∃ p row, src.get? j = some (some p) ∧
        getRow iz p = some row ∧ out.get? (i0 + j) = some row) := by
  intro src
  induction src with
  | nil =>
    intro i0 acc out h
    have hout : acc = out := by
      simpa [assembleDV] using h
    subst hout
    exact ⟨rfl, fun r _ => rfl, fun j hj => absurd hj (by simp)⟩
  | cons o rest ih =>
    intro i0 acc out h
    cases o with
    | none => exact absurd h (by simp [assembleDV])
    | some p =>
      unfold assembleDV at h
      split at h
      · exact absurd h (by simp)
      rename_i rowp hrowp
      split at h
      · exact absurd h (by simp)
      rename_i acc2 hacc2
      rcases setRow_eq_some hacc2 with ⟨rowAcc, hrowAcc, hlenAcc, rfl⟩
      have hi0 : i0 < acc.length := by
        by_contra hcon
        rw [List.get?_eq_none.mpr (by omega)] at hrowAcc
        exact Option.noConfusion hrowAcc
      rcases ih (i0 + 1) (acc.set i0 rowp) out h with ⟨hoLen, hoFrame, hoBand⟩
      refine ⟨by rw [hoLen, List.length_set], ?_, ?_⟩
      · intro r hr
        rw [hoFrame r (by simp at hr ⊢; omega), List.get?_set,
          if_neg (by simp at hr; omega)]
      · intro j hj
        cases j with
        | zero =>
          refine ⟨p, rowp, rfl, hrowp, ?_⟩
          rw [Nat.add_zero, hoFrame i0 (Or.inl (by omega)), List.get?_set,
            if_pos rfl, hrowAcc]
          rfl
        | succ j2 =>
          rcases hoBand j2 (by simp at hj; omega) with ⟨p2, row2, hg, hr2, he2⟩
          refine ⟨p2, row2, hg, hr2, ?_⟩
          rw [show i0 + (j2 + 1) = i0 + 1 + j2 by omega]
          exact he2

/-- Re-running the DV loop on its own output reproduces it. -/
lemma assembleDV_idem (iz : Nat) :
    ∀ (src : List (Option Plane)) (i0 : Nat) (acc out : Plane),
      assembleDV iz i0 src acc = .ok out →
      assembleDV iz i0 src out = .ok out := by
  intro src
  induction src with
  | nil => intro i0 acc out _; rfl
  | cons o rest ih =>
    intro i0 acc out h
    cases o with
    | none => exact absurd h (by simp [assembleDV])
    | some p =>
      unfold assembleDV at h
      split at h
      · exact absurd h (by simp)
      rename_i rowp hrowp
      split at h
      · exact absurd h (by simp)
      rename_i acc2 hacc2
      rcases setRow_eq_some hacc2 with ⟨rowAcc, hrowAcc, hlenAcc, rfl⟩
      rcases assembleDV_out iz rest (i0 + 1) (acc.set i0 rowp) out h
        with ⟨hoLen, hoFrame, _⟩
      have hi0 : i0 < acc.length := by
        by_contra hcon
        rw [List.get?_eq_none.mpr (by omega)] at hrowAcc
        exact Option.noConfusion hrowAcc
      have hout0 : out.get? i0 = some rowp := by
        rw [hoFrame i0 (Or.inl (by omega)), List.get?_set, if_pos rfl, hrowAcc]
        rfl
      have hset2 : setRow i0 rowp out = some (out.set i0 rowp) :=
        setRow_ok hout0 rfl
      rw [set_get?_self hout0] at hset2
      simp only [assembleDV, hrowp, hset2]
      exact ih (i0 + 1) (acc.set i0 rowp) out h

/-! ## Helper lemmas: the store and the generate functions -/

lemma updateStore_at (s : Store) (d : Dir) (iz : Nat) (p : Plane) :
    updateStore s d iz p d iz = some p := by
  simp [updateStore]

lemma updateStore_ne (s : Store) (d : Dir) (iz : Nat) (p : Plane)
    {d2 : Dir} {j : Nat} (h : ¬(d2 = d ∧ j = iz)) :
    updateStore s d iz p d2 j = s d2 j := by
  simp only [updateStore, if_neg h]

lemma updateStore_self {s : Store} {d : Dir} {iz : Nat} {p : Plane}
    (h : s d iz = some p) : updateStore s d iz p = s := by
  funext d2 j
  unfold updateStore
  split
  · rename_i hc
    rw [hc.1, hc.2, h]
  · rfl

lemma generateAP_ok_inv {src : List (Option Plane)} {ny : Nat} {store s2 : Store}
    {iz : Nat} (h : generateAP src ny store iz = (s2, none)) :
    ∃ out, assembleAP iz 0 src (apInit (store Dir.AP iz) ny src.length) = .ok out ∧
      s2 = updateStore store Dir.AP iz out := by
  unfold generateAP at h
  split at h
  · rename_i out hout
    rw [Prod.mk.injEq] at h
    exact ⟨out, hout, h.1.symm⟩
  · rw [Prod.mk.injEq] at h
    exact absurd h.2 (by simp)

lemma generateAP_err_inv {src : List (Option Plane)} {ny : Nat} {store s2 : Store}
    {iz : Nat} {e : Err} (h : generateAP src ny store iz = (s2, some e)) :
    s2 = store ∧
      assembleAP iz 0 src (apInit (store Dir.AP iz) ny src.length) = .error e := by
  unfold generateAP at h
  split at h
  · rw [Prod.mk.injEq] at h
    exact absurd h.2 (by simp)
  · rename_i e2 hout
    rw [Prod.mk.injEq] at h
    rw [Option.some.injEq] at *
    exact ⟨h.1.symm, by rw [hout, h.2]⟩

lemma generateDV_ok_inv {src : List (Option Plane)} {nx : Nat} {store s2 : Store}
    {iz : Nat} (h : generateDV src nx store iz = (s2, none)) :
    ∃ out, assembleDV iz 0 src (dvInit (store Dir.DV iz) nx src.length) = .ok out ∧
      s2 = updateStore store Dir.DV iz out := by
  unfold generateDV at h
  split at h
  · rename_i out hout
    rw [Prod.mk.injEq] at h
    exact ⟨out, hout, h.1.symm⟩
  · rw [Prod.mk.injEq] at h
    exact absurd h.2 (by simp)

lemma generateDV_err_inv {src : List (Option Plane)} {nx : Nat} {store s2 : Store}
    {iz : Nat} {e : Err} (h : generateDV src nx store iz = (s2, some e)) :
    s2 = store ∧
      assembleDV iz 0 src (dvInit (store Dir.DV iz) nx src.length) = .error e := by
  unfold generateDV at h
  split at h
  · rw [Prod.mk.injEq] at h
    exact absurd h.2 (by simp)
  · rename_i e2 hout
    rw [Prod.mk.injEq] at h
    rw [Option.some.injEq] at *
    exact ⟨h.1.symm, by rw [hout, h.2]⟩

/-- generateAP touches no store key other than `(AP, iz)`. -/
lemma generateAP_frame {src : List (Option Plane)} {ny : Nat} {store s2 : Store}
    {iz : Nat} {r2 : Option Err} (h : generateAP src ny store iz = (s2, r2)) :
    ∀ d j, ¬(d = Dir.AP ∧ j = iz) → s2 d j = store d j := by
  intro d j hdj
  unfold generateAP at h
  split at h <;> rw [Prod.mk.injEq] at h <;> rw [← h.1]
  exact updateStore_ne store Dir.AP iz _ hdj

/-- generateDV touches no store key other than `(DV, iz)`. -/
lemma generateDV_frame {src : List (Option Plane)} {nx : Nat} {store s2 : Store}
    {iz : Nat} {r2 : Option Err} (h : generateDV src nx store iz = (s2, r2)) :
    ∀ d j, ¬(d = Dir.DV ∧ j = iz) → s2 d j = store d j := by
  intro d j hdj
  unfold generateDV at h
  split at h <;> rw [Prod.mk.injEq] at h <;> rw [← h.1]
  exact updateStore_ne store Dir.DV iz _ hdj

/-- After a successful generateAP, re-running it from any store holding
the same plane at `(AP, iz)` is a no-op that succeeds. -/
lemma generateAP_stable {src : List (Option Plane)} {ny : Nat} {store s2 : Store}
    {iz : Nat} (h : generateAP src ny store iz = (s2, none)) :
    ∀ t : Store, t Dir.AP iz = s2 Dir.AP iz → generateAP src ny t iz = (t, none) := by
  rcases generateAP_ok_inv h with ⟨out, hasm, rfl⟩
  intro t ht
  have ht2 : t Dir.AP iz = some out := by rw [ht, updateStore_at]
  have hidem := assembleAP_idem iz src 0 _ out hasm
  have hinit : apInit (t Dir.AP iz) ny src.length = out := by
    rw [ht2]
    rfl
  unfold generateAP
  rw [hinit, hidem]
  show (updateStore t Dir.AP iz out, none) = (t, none)
  rw [updateStore_self ht2]

/-- After a successful generateDV, re-running it from any store holding
the same plane at `(DV, iz)` is a no-op that succeeds. -/
lemma generateDV_stable {src : List (Option Plane)} {nx : Nat} {store s2 : Store}
    {iz : Nat} (h : generateDV src nx store iz = (s2, none)) :
    ∀ t : Store, t Dir.DV iz = s2 Dir.DV iz → generateDV src nx t iz = (t, none) := by
  rcases generateDV_ok_inv h with ⟨out, hasm, rfl⟩
  intro t ht
  have ht2 : t Dir.DV iz = some out := by rw [ht, updateStore_at]
  have hidem := assembleDV_idem iz src 0 _ out hasm
  have hinit : dvInit (t Dir.DV iz) nx src.length = out := by
    rw [ht2]
    rfl
  unfold generateDV
  rw [hinit, hidem]
  show (updateStore t Dir.DV iz out, none) = (t, none)
  rw [updateStore_self ht2]

/-! ## Helper lemmas: the generation loop -/

/-- The loop over `L` touches no key `(d, j)` with `j` outside `L`
(for a generator that touches only `(D, iz)` at step `iz`). -/
lemma runGen_frame (gen : Store → Nat → Store × Option Err) (D : Dir)
    (hf : ∀ store iz s2 r2, gen store iz = (s2, r2) →
      ∀ d j, ¬(d = D ∧ j = iz) → s2 d j = store d j) :
    ∀ (L : List Nat) (store s2 : Store) (r2 : Option Err),
      runGen gen store L = (s2, r2) →
      ∀ d j, ¬(d = D ∧ j ∈ L) → s2 d j = store d j := by
  intro L
  induction L with
  | nil =>
    intro store s2 r2 h d j _
    rw [show runGen gen store [] = (store, none) from rfl, Prod.mk.injEq] at h
    rw [← h.1]
  | cons iz rest ih =>
    intro store s2 r2 h d j hj
    have h1 : ¬(d = D ∧ j = iz) := by
      rintro ⟨rfl, rfl⟩
      exact hj ⟨rfl, by simp⟩
    have h2 : ¬(d = D ∧ j ∈ rest) := by
      rintro ⟨rfl, hm⟩
      exact hj ⟨rfl, by simp [hm]⟩
    rcases hg : gen store iz with ⟨t, rt⟩
    cases rt with
    | none =>
      simp only [runGen, hg] at h
      rw [ih t s2 r2 h d j h2]
      exact hf store iz t none hg d j h1
    | some e =>
      simp only [runGen, hg, Prod.mk.injEq] at h
      rw [← h.1]
      exact hf store iz t (some e) hg d j h1

/-- A successful loop re-run from its own result changes nothing. -/
lemma runGen_idem (gen : Store → Nat → Store × Option Err) (D : Dir)
    (hf : ∀ store iz s2 r2, gen store iz = (s2, r2) →
      ∀ d j, ¬(d = D ∧ j = iz) → s2 d j = store d j)
    (hs : ∀ store iz s2, gen store iz = (s2, none) →
      ∀ t : Store, t D iz = s2 D iz → gen t iz = (t, none)) :
    ∀ (L : List Nat), L.Nodup → ∀ (store s1 : Store),
      runGen gen store L = (s1, none) → runGen gen s1 L = (s1, none) := by
  intro L
  induction L with
  | nil => intro _ store s1 _; rfl
  | cons iz rest ih =>
    intro hnd store s1 h
    rcases List.nodup_cons.mp hnd with ⟨hizrest, hndrest⟩
    rcases hg : gen store iz with ⟨t, rt⟩
    cases rt with
    | none =>
      simp only [runGen, hg] at h
      have hkey : s1 D iz = t D iz :=
        runGen_frame gen D hf rest t s1 none h D iz
          (fun hcon => hizrest hcon.2)
      have hgen2 : gen s1 iz = (s1, none) := hs store iz t hg s1 hkey
      simp only [runGen, hgen2]
      exact ih hndrest t s1 h
    | some e =>
      simp only [runGen, hg, Prod.mk.injEq] at h
      exact absurd h.2 (by simp)

/-- Composing the loop over an appended index list. -/
lemma runGen_append_ok (gen : Store → Nat → Store × Option Err) :
    ∀ (L1 L2 : List Nat) (store s1 : Store),
      runGen gen store L1 = (s1, none) →
      runGen gen store (L1 ++ L2) = runGen gen s1 L2 := by
  intro L1
  induction L1 with
  | nil =>
    intro L2 store s1 h
    rw [show runGen gen store [] = (store, none) from rfl, Prod.mk.injEq] at h
    rw [List.nil_append, h.1]
  | cons iz rest ih =>
    intro L2 store s1 h
    rcases hg : gen store iz with ⟨t, rt⟩
    cases rt with
    | none =>
      simp only [runGen, hg] at h
      simp only [List.cons_append, runGen, hg]
      exact ih L2 t s1 h
    | some e =>
      simp only [runGen, hg, Prod.mk.injEq] at h
      exact absurd h.2 (by simp)

/-- An aborted loop decomposes into a successful prefix and a failing
step at its end. -/
lemma runGen_err_split (gen : Store → Nat → Store × Option Err) :
    ∀ (L : List Nat) (store s2 : Store) (e : Err),
      runGen gen store L = (s2, some e) →
      ∃ L1 j L2 s1, L = L1 ++ j :: L2 ∧ runGen gen store L1 = (s1, none) ∧
        gen s1 j = (s2, some e) := by
  intro L
  induction L with
  | nil =>
    intro store s2 e h
    rw [show runGen gen store [] = (store, none) from rfl, Prod.mk.injEq] at h
    exact absurd h.2 (by simp)
  | cons iz rest ih =>
    intro store s2 e h
    rcases hg : gen store iz with ⟨t, rt⟩
    cases rt with
    | none =>
      simp only [runGen, hg] at h
      rcases ih t s2 e h with ⟨L1, j, L2, s1, rfl, hpre, hstep⟩
      refine ⟨iz :: L1, j, L2, s1, rfl, ?_, hstep⟩
      simp only [runGen, hg]
      exact hpre
    | some e2 =>
      simp only [runGen, hg, Prod.mk.injEq] at h
      refine ⟨[], iz, rest, store, rfl, rfl, ?_⟩
      rw [hg, h.1, h.2]

/-! ## Helper lemmas: ranges -/

lemma rangeList_toNat (s e : Int) (hs : 0 ≤ s) :
    (rangeList s e).map Int.toNat
      = (List.range (e + 1 - s).toNat).map (fun k => s.toNat + k) := by
  unfold rangeList
  rw [List.map_map]
  apply List.map_congr_left
  intro k _
  show (s + (k : Int)).toNat = s.toNat + k
  omega

lemma rangeList_nodupNat (s e : Int) (hs : 0 ≤ s) :
    ((rangeList s e).map Int.toNat).Nodup := by
  rw [rangeList_toNat s e hs]
  exact (List.nodup_range _).map (fun a b hab => by omega)

lemma rangeList_append (a b c : Int) (h1 : a ≤ b + 1) (h2 : b ≤ c) :
    rangeList a b ++ rangeList (b + 1) c = rangeList a c := by
  unfold rangeList
  have hn : (c + 1 - a).toNat = (b + 1 - a).toNat + (c - b).toNat := by omega
  rw [hn, List.range_add, List.map_append, List.map_map,
    show c + 1 - (b + 1) = c - b by ring]
  congr 1
  apply List.map_congr_left
  intro k _
  show b + 1 + (k : Int) = a + (((b + 1 - a).toNat + k : Nat) : Int)
  omega

lemma rangeList_mem_nonneg {s e x : Int} (hs : 0 ≤ s) (hx : x ∈ rangeList s e) :
    0 ≤ x := by
  unfold rangeList at hx
  rcases List.mem_map.mp hx with ⟨k, _, rfl⟩
  omega

/-! ## Helper lemmas: the Python 2 sort key order -/

lemma lexLe_total : ∀ a b, lexLe a b = true ∨ lexLe b a = true := by
  intro a
  induction a with
  | nil => intro b; left; rfl
  | cons x as ih =>
    intro b
    cases b with
    | nil => right; rfl
    | cons y bs =>
      unfold lexLe
      by_cases h1 : x.toNat < y.toNat
      · left
        rw [if_pos h1]
      · by_cases h2 : y.toNat < x.toNat
        · right
          rw [if_pos h2]
        · rcases ih bs with h | h
          · left
            rw [if_neg h1, if_neg h2]
            exact h
          · right
            rw [if_neg h2, if_neg h1]
            exact h

lemma lexLe_trans : ∀ a b c, lexLe a b = true → lexLe b c = true →
    lexLe a c = true := by
  intro a
  induction a with
  | nil => intro b c _ _; rfl
  | cons x as ih =>
    intro b c h1 h2
    cases b with
    | nil => exact absurd h1 (by simp [lexLe])
    | cons y bs =>
      cases c with
      | nil => exact absurd h2 (by simp [lexLe])
      | cons z cs =>
        unfold lexLe at h1 h2 ⊢
        by_cases hxy : x.toNat < y.toNat
        · by_cases hyz : y.toNat < z.toNat
          · rw [if_pos (by omega)]
          · by_cases hzy : z.toNat < y.toNat
            · rw [if_neg hyz, if_pos hzy] at h2
              exact absurd h2 (by simp)
            · rw [if_pos (by omega)]
        · by_cases hyx : y.toNat < x.toNat
          · rw [if_neg hxy, if_pos hyx] at h1
            exact absurd h1 (by simp)
          · rw [if_neg hxy, if_neg hyx] at h1
            by_cases hyz : y.toNat < z.toNat
            · rw [if_pos (by omega)]
            · by_cases hzy : z.toNat < y.toNat
              · rw [if_neg hyz, if_pos hzy] at h2
                exact absurd h2 (by simp)
              · rw [if_neg hyz, if_neg hzy] at h2
                rw [if_neg (by omega), if_neg (by omega)]
                exact ih bs cs h1 h2

lemma pyKeyLe_total : ∀ a b, pyKeyLe a b = true ∨ pyKeyLe b a = true := by
  intro a b
  cases a with
  | inl n =>
    cases b with
    | inl m =>
      simp only [pyKeyLe, decide_eq_true_eq]
      omega
    | inr t => left; rfl
  | inr s =>
    cases b with
    | inl m => right; rfl
    | inr t => exact lexLe_total s t

lemma pyKeyLe_trans : ∀ a b c, pyKeyLe a b = true → pyKeyLe b c = true →
    pyKeyLe a c = true := by
  intro a b c h1 h2
  cases a with
  | inl n =>
    cases c with
    | inl m =>
      cases b with
      | inl k =>
        simp only [pyKeyLe, decide_eq_true_eq] at h1 h2 ⊢
        omega
      | inr t => exact absurd h2 (by simp [pyKeyLe])
    | inr t => rfl
  | inr s =>
    cases b with
    | inl k => exact absurd h1 (by simp [pyKeyLe])
    | inr t =>
      cases c with
      | inl m => exact absurd h2 (by simp [pyKeyLe])
      | inr u => exact lexLe_trans s t u h1 h2

/-! ## Claim theorems -/

/-- C1: Re-slice pixel correctness for both directions: for a source
stack of `N` readable rectangular `H × W` planes and a
fresh-or-conforming output slot, generateAP at `iz < W` writes a plane
of shape `(H, N)` whose column `i` is column `iz` of source plane `i`,
and generateDV at `iz < H` writes a plane of shape `(N, W)` whose row
`i` is row `iz` of source plane `i` — exact equality of every pixel,
no interpolation or conversion. -/
theorem reslice_pixel_correct (srcP : List Plane) (H W : Nat) (store : Store)
    (iz : Nat) (hrect : ∀ p ∈ srcP, rect H W p)
    (hapSlot : store Dir.AP iz = none ∨
      ∃ q, store Dir.AP iz = some q ∧ rect H srcP.length q)
    (hdvSlot : store Dir.DV iz = none ∨
      ∃ q, store Dir.DV iz = some q ∧ rect srcP.length W q) :
    (iz < W → ∃ out,
      generateAP (srcP.map some) H store iz
        = (updateStore store Dir.AP iz out, none) ∧
      rect H srcP.length out ∧
      ∀ i, i < srcP.length → ∀ r, r < H →
        entry out r i = srcEntry srcP i r iz) ∧
    (iz < H → ∃ out,
      generateDV (srcP.map some) W store iz
        = (updateStore store Dir.DV iz out, none) ∧
      rect srcP.length W out ∧
      ∀ i, i < srcP.length → ∀ c, c < W →
        entry out i c = srcEntry srcP i iz c) := by
  have hlen : (srcP.map some).length = srcP.length := by rw [List.length_map]
  constructor
  · intro hiz
    have hinit : (apInit (store Dir.AP iz) H srcP.length).length = H ∧
        ∀ row ∈ apInit (store Dir.AP iz) H srcP.length,
          row.length = srcP.length := by
      rcases hapSlot with hnone | ⟨q, hq, hqrect⟩
      · rw [hnone]
        exact ⟨zerosPlane_length _ _, zerosPlane_rows _ _⟩
      · rw [hq]
        exact ⟨hqrect.1, hqrect.2⟩
    rcases assembleAP_ok iz H W hiz srcP 0 _ hrect hinit.1
        (fun row hrow => by rw [hinit.2 row hrow]; omega)
      with ⟨out, hrun, hoLen, hoLens, hoEnt⟩
    refine ⟨out, ?_, ?_, ?_⟩
    · unfold generateAP
      rw [hlen, hrun]
    · exact ⟨hoLen, rowLen_mem hoLens (P := fun n => n = srcP.length) hinit.2⟩
    · intro i hi r hr
      rw [hoEnt r i, if_pos ⟨Nat.zero_le i, by omega⟩, Nat.sub_zero]
  · intro hiz
    have hinit : (∀ row ∈ dvInit (store Dir.DV iz) W srcP.length,
          row.length = W) ∧
        (dvInit (store Dir.DV iz) W srcP.length).length = srcP.length := by
      rcases hdvSlot with hnone | ⟨q, hq, hqrect⟩
      · rw [hnone]
        exact ⟨zerosPlane_rows _ _, zerosPlane_length _ _⟩
      · rw [hq]
        exact ⟨hqrect.2, hqrect.1⟩
    rcases assembleDV_ok iz H W hiz srcP 0 _ hrect hinit.1 (by omega)
      with ⟨out, hrun, hoLen, hoW, hoEnt⟩
    refine ⟨out, ?_, ?_, ?_⟩
    · unfold generateDV
      rw [hlen, hrun]
    · exact ⟨by rw [hoLen, hinit.2], hoW⟩
    · intro i hi c hc
      rw [hoEnt i c, if_pos ⟨Nat.zero_le i, by omega⟩, Nat.sub_zero]

theorem reslice_pixel_correct_witness :
    (∀ p ∈ ([[[1, 2]], [[3, 4]]] : List Plane), rect 1 2 p) ∧
    (∃ out, generateAP (([[[1, 2]], [[3, 4]]] : List Plane).map some) 1
        emptyStore 0 = (updateStore emptyStore Dir.AP 0 out, none) ∧
      rect 1 2 out ∧
      ∀ i, i < 2 → ∀ r, r < 1 →
        entry out r i = srcEntry [[[1, 2]], [[3, 4]]] i r 0) ∧
    (∃ out, generateDV (([[[1, 2]], [[3, 4]]] : List Plane).map some) 2
        emptyStore 0 = (updateStore emptyStore Dir.DV 0 out, none) ∧
      rect 2 2 out ∧
      ∀ i, i < 2 → ∀ c, c < 2 →
        entry out i c = srcEntry [[[1, 2]], [[3, 4]]] i 0 c) := by
  have h := reslice_pixel_correct [[[1, 2]], [[3, 4]]] 1 2 emptyStore 0
    (by decide) (Or.inl rfl) (Or.inl rfl)
  exact ⟨by decide, h.1 (by decide), h.2 (by decide)⟩

/-- C6: Empty-stack failure: with an empty source stack the run aborts
with the empty-stack error (the code's `img_list[0]` lookup raises, the
spec's EmptyStackError) for every direction and range, before the probe
image is read and before any output is produced: the store is returned
unchanged. -/
theorem emptyStack_aborts (d : Dir) (starti endi : Int) (store : Store) :
    mainRun [] d starti endi store = (store, some Err.emptyStack) := rfl

/-- C10: the probe destructures the probe plane's shape into exactly
`(H, W)`: a first source plane whose dimensionality is not 2 (for
example a 3-dimensional RGB image) makes descriptor derivation fail
before any output is produced, for every direction and range. -/
theorem probe_requires_2d (img : NDArr) (rest : List (Option NDArr)) (d : Dir)
    (starti endi : Int) (store : Store) (hnd : (ndshape img).length ≠ 2) :
    mainRun (some img :: rest) d starti endi store
      = (store, some Err.probeDims) := by
  simp only [mainRun]
  rcases hs : ndshape img with _ | ⟨a, _ | ⟨b, _ | ⟨c3, t⟩⟩⟩
  · rfl
  · rfl
  · rw [hs] at hnd
    simp at hnd
  · rfl

theorem probe_requires_2d_witness :
    (ndshape (NDArr.arr [NDArr.arr [NDArr.arr
        [NDArr.scalar 1, NDArr.scalar 2, NDArr.scalar 3]]])).length ≠ 2 ∧
    mainRun [some (NDArr.arr [NDArr.arr [NDArr.arr
        [NDArr.scalar 1, NDArr.scalar 2, NDArr.scalar 3]]])] Dir.AP 0 5
      emptyStore = (emptyStore, some Err.probeDims) :=
  ⟨by decide,
    probe_requires_2d (NDArr.arr [NDArr.arr [NDArr.arr
      [NDArr.scalar 1, NDArr.scalar 2, NDArr.scalar 3]]]) [] Dir.AP 0 5
      emptyStore (by decide)⟩

/-! ## Helper lemmas: range normalization -/

lemma runAP_eq (src : List (Option Plane)) (ny nx : Nat) (store : Store)
    (a b : Int) :
    runAP src ny nx store a b
      = runGen (generateAP src ny) store
          ((rangeList (clampLow (swapRange a b).1)
            (clampHigh (swapRange a b).2 ((nx : Int) - 1))).map Int.toNat) := rfl

lemma runDV_eq (src : List (Option Plane)) (ny nx : Nat) (store : Store)
    (a b : Int) :
    runDV src ny nx store a b
      = runGen (generateDV src nx) store
          ((rangeList (clampLow (swapRange a b).1)
            (clampHigh (swapRange a b).2 ((ny : Int) - 1))).map Int.toNat) := rfl

lemma claimRunAP_eq (src : List (Option Plane)) (ny nx : Nat) (store : Store)
    (a b : Int) :
    claimRunAP src ny nx store a b
      = runGen (generateAP src ny) store
          ((rangeList (claimClampBoth (swapRange a b).1 ((nx : Int) - 1))
            (claimClampBoth (swapRange a b).2 ((nx : Int) - 1))).map Int.toNat)
    := rfl

lemma claimRunDV_eq (src : List (Option Plane)) (ny nx : Nat) (store : Store)
    (a b : Int) :
    claimRunDV src ny nx store a b
      = runGen (generateDV src nx) store
          ((rangeList (claimClampBoth (swapRange a b).1 ((ny : Int) - 1))
            (claimClampBoth (swapRange a b).2 ((ny : Int) - 1))).map Int.toNat)
    := rfl

lemma clampLow_nonneg (s : Int) : 0 ≤ clampLow s := by
  unfold clampLow
  split <;> omega

lemma swapRange_eq (s e : Int) : swapRange s e = (min s e, max s e) := by
  unfold swapRange
  split <;> rw [Prod.mk.injEq] <;> constructor <;> omega

lemma clampLow_eq (s : Int) : clampLow s = max 0 s := by
  unfold clampLow
  split <;> omega

lemma clampHigh_eq (e M : Int) : clampHigh e M = min e M := by
  unfold clampHigh
  split <;> omega

lemma rangeList_nil {s e : Int} (h : e < s) : rangeList s e = [] := by
  unfold rangeList
  rw [show (e + 1 - s).toNat = 0 by omega]
  rfl

/-- C2: Idempotence: for either direction, rerunning the reslice over
the same range from the store a successful run produced changes
nothing: every requested output plane is recomputed from scratch (every
source index is always visited by the inner loop), not accumulated. -/
theorem reslice_idempotent (src : List (Option Plane)) (ny nx : Nat)
    (store s1 : Store) (a b : Int) :
    (runAP src ny nx store a b = (s1, none) →
      runAP src ny nx s1 a b = (s1, none)) ∧
    (runDV src ny nx store a b = (s1, none) →
      runDV src ny nx s1 a b = (s1, none)) := by
  constructor
  · intro h
    rw [runAP_eq] at h ⊢
    exact runGen_idem (generateAP src ny) Dir.AP
      (fun st iz s2 r2 hg => generateAP_frame hg)
      (fun st iz s2 hg => generateAP_stable hg) _
      (rangeList_nodupNat _ _ (clampLow_nonneg _)) store s1 h
  · intro h
    rw [runDV_eq] at h ⊢
    exact runGen_idem (generateDV src nx) Dir.DV
      (fun st iz s2 r2 hg => generateDV_frame hg)
      (fun st iz s2 hg => generateDV_stable hg) _
      (rangeList_nodupNat _ _ (clampLow_nonneg _)) store s1 h

theorem reslice_idempotent_witness :
    ∃ s1 : Store,
      runAP [some [[5, 7]]] 1 2 emptyStore 0 1 = (s1, none) ∧
      runAP [some [[5, 7]]] 1 2 s1 0 1 = (s1, none) := by
  have h1 : runAP [some [[5, 7]]] 1 2 emptyStore 0 1
      = ((runAP [some [[5, 7]]] 1 2 emptyStore 0 1).1, none) := rfl
  exact ⟨(runAP [some [[5, 7]]] 1 2 emptyStore 0 1).1, h1,
    (reslice_idempotent [some [[5, 7]]] 1 2 emptyStore
      (runAP [some [[5, 7]]] 1 2 emptyStore 0 1).1 0 1).1 h1⟩

/-- C3: Partition property: for either direction and any split point
`k` with `0 ≤ k < maxIz`, reslicing `[0, k]` and then `[k+1, maxIz]`
produces exactly the end state (and outcome) of one run over
`[0, maxIz]`. -/
theorem reslice_partition (src : List (Option Plane)) (ny nx : Nat)
    (store s1 : Store) (k : Int) :
    (0 ≤ k → k < (nx : Int) - 1 →
      runAP src ny nx store 0 k = (s1, none) →
      runAP src ny nx s1 (k + 1) ((nx : Int) - 1)
        = runAP src ny nx store 0 ((nx : Int) - 1)) ∧
    (0 ≤ k → k < (ny : Int) - 1 →
      runDV src ny nx store 0 k = (s1, none) →
      runDV src ny nx s1 (k + 1) ((ny : Int) - 1)
        = runDV src ny nx store 0 ((ny : Int) - 1)) := by
  constructor
  · intro hk0 hkM h
    rw [runAP_eq] at h
    rw [runAP_eq, runAP_eq]
    simp only [swapRange_eq, clampLow_eq, clampHigh_eq] at h ⊢
    rw [show min 0 k = 0 by omega, show max 0 k = k by omega,
      show min k ((nx : Int) - 1) = k by omega,
      show max 0 (0 : Int) = 0 by omega] at h
    rw [show min (k + 1) ((nx : Int) - 1) = k + 1 by omega,
      show max (k + 1) ((nx : Int) - 1) = (nx : Int) - 1 by omega,
      show max 0 (k + 1) = k + 1 by omega,
      show min 0 ((nx : Int) - 1) = 0 by omega,
      show max 0 ((nx : Int) - 1) = (nx : Int) - 1 by omega,
      show min ((nx : Int) - 1) ((nx : Int) - 1) = (nx : Int) - 1 by omega,
      show max 0 (0 : Int) = 0 by omega]
    rw [← rangeList_append 0 k ((nx : Int) - 1) (by omega) (by omega),
      List.map_append]
    exact (runGen_append_ok _ _ _ store s1 h).symm
  · intro hk0 hkM h
    rw [runDV_eq] at h
    rw [runDV_eq, runDV_eq]
    simp only [swapRange_eq, clampLow_eq, clampHigh_eq] at h ⊢
    rw [show min 0 k = 0 by omega, show max 0 k = k by omega,
      show min k ((ny : Int) - 1) = k by omega,
      show max 0 (0 : Int) = 0 by omega] at h
    rw [show min (k + 1) ((ny : Int) - 1) = k + 1 by omega,
      show max (k + 1) ((ny : Int) - 1) = (ny : Int) - 1 by omega,
      show max 0 (k + 1) = k + 1 by omega,
      show min 0 ((ny : Int) - 1) = 0 by omega,
      show max 0 ((ny : Int) - 1) = (ny : Int) - 1 by omega,
      show min ((ny : Int) - 1) ((ny : Int) - 1) = (ny : Int) - 1 by omega,
      show max 0 (0 : Int) = 0 by omega]
    rw [← rangeList_append 0 k ((ny : Int) - 1) (by omega) (by omega),
      List.map_append]
    exact (runGen_append_ok _ _ _ store s1 h).symm

theorem reslice_partition_witness :
    ((0 : Int) ≤ 0 ∧ (0 : Int) < ((3 : Nat) : Int) - 1) ∧
    ∃ s1 : Store,
      runAP [some [[5, 7, 9]]] 1 3 emptyStore 0 0 = (s1, none) ∧
      runAP [some [[5, 7, 9]]] 1 3 s1 (0 + 1) (((3 : Nat) : Int) - 1)
        = runAP [some [[5, 7, 9]]] 1 3 emptyStore 0 (((3 : Nat) : Int) - 1) := by
  have h1 : runAP [some [[5, 7, 9]]] 1 3 emptyStore 0 0
      = ((runAP [some [[5, 7, 9]]] 1 3 emptyStore 0 0).1, none) := rfl
  exact ⟨⟨by decide, by decide⟩,
    (runAP [some [[5, 7, 9]]] 1 3 emptyStore 0 0).1, h1,
    (reslice_partition [some [[5, 7, 9]]] 1 3 emptyStore
      (runAP [some [[5, 7, 9]]] 1 3 emptyStore 0 0).1 0).1
      (by decide) (by decide) h1⟩

/-- C8: Store-key disjointness (frame property): building output index
`iz` writes only the store key `(direction, iz)` — in particular AP
runs never touch DV keys and vice versa — its outcome depends only on
that single output key (its reads are the source stack, which is an
immutable input of the model and is never written, plus that key), and
a range run writes only its direction's keys with indices in the
range. -/
theorem store_key_disjoint (src : List (Option Plane)) (ny nx : Nat)
    (store store2 : Store) (iz : Nat) (L : List Nat) :
    (∀ s2 r2, generateAP src ny store iz = (s2, r2) →
      ∀ d j, ¬(d = Dir.AP ∧ j = iz) → s2 d j = store d j) ∧
    (∀ s2 r2, generateDV src nx store iz = (s2, r2) →
      ∀ d j, ¬(d = Dir.DV ∧ j = iz) → s2 d j = store d j) ∧
    (store2 Dir.AP iz = store Dir.AP iz →
      (generateAP src ny store2 iz).2 = (generateAP src ny store iz).2 ∧
      (generateAP src ny store2 iz).1 Dir.AP iz
        = (generateAP src ny store iz).1 Dir.AP iz) ∧
    (store2 Dir.DV iz = store Dir.DV iz →
      (generateDV src nx store2 iz).2 = (generateDV src nx store iz).2 ∧
      (generateDV src nx store2 iz).1 Dir.DV iz
        = (generateDV src nx store iz).1 Dir.DV iz) ∧
    (∀ s2 r2, runGen (generateAP src ny) store L = (s2, r2) →
      ∀ d j, ¬(d = Dir.AP ∧ j ∈ L) → s2 d j = store d j) ∧
    (∀ s2 r2, runGen (generateDV src nx) store L = (s2, r2) →
      ∀ d j, ¬(d = Dir.DV ∧ j ∈ L) → s2 d j = store d j) := by
  refine ⟨?_, ?_, ?_, ?_, ?_, ?_⟩
  · intro s2 r2 hg
    exact generateAP_frame hg
  · intro s2 r2 hg
    exact generateDV_frame hg
  · intro heq
    have hsame : assembleAP iz 0 src (apInit (store2 Dir.AP iz) ny src.length)
        = assembleAP iz 0 src (apInit (store Dir.AP iz) ny src.length) := by
      rw [heq]
    unfold generateAP
    rw [hsame]
    rcases hres : assembleAP iz 0 src (apInit (store Dir.AP iz) ny src.length)
      with e | out
    · exact ⟨rfl, heq⟩
    · refine ⟨rfl, ?_⟩
      show updateStore store2 Dir.AP iz out Dir.AP iz
        = updateStore store Dir.AP iz out Dir.AP iz
      rw [updateStore_at, updateStore_at]
  · intro heq
    have hsame : assembleDV iz 0 src (dvInit (store2 Dir.DV iz) nx src.length)
        = assembleDV iz 0 src (dvInit (store Dir.DV iz) nx src.length) := by
      rw [heq]
    unfold generateDV
    rw [hsame]
    rcases hres : assembleDV iz 0 src (dvInit (store Dir.DV iz) nx src.length)
      with e | out
    · exact ⟨rfl, heq⟩
    · refine ⟨rfl, ?_⟩
      show updateStore store2 Dir.DV iz out Dir.DV iz
        = updateStore store Dir.DV iz out Dir.DV iz
      rw [updateStore_at, updateStore_at]
  · intro s2 r2 hg
    exact runGen_frame (generateAP src ny) Dir.AP
      (fun st iz2 t rt ht => generateAP_frame ht) L store s2 r2 hg
  · intro s2 r2 hg
    exact runGen_frame (generateDV src nx) Dir.DV
      (fun st iz2 t rt ht => generateDV_frame ht) L store s2 r2 hg

theorem store_key_disjoint_witness :
    (generateAP [some [[5, 7]]] 1 emptyStore 0).1 Dir.DV 0 = emptyStore Dir.DV 0 ∧
    (generateAP [some [[5, 7]]] 1 emptyStore 0).1 Dir.AP 1 = emptyStore Dir.AP 1 ∧
    (generateDV [some [[5, 7]]] 2 emptyStore 0).1 Dir.AP 0 = emptyStore Dir.AP 0 ∧
    (generateAP [some [[5, 7]]] 1 (updateStore emptyStore Dir.DV 3 [[9]]) 0).2
      = (generateAP [some [[5, 7]]] 1 emptyStore 0).2 ∧
    (generateDV [some [[5, 7]]] 2 (updateStore emptyStore Dir.AP 3 [[9]]) 0).2
      = (generateDV [some [[5, 7]]] 2 emptyStore 0).2 ∧
    (runGen (generateAP [some [[5, 7]]] 1) emptyStore [0, 1]).1 Dir.AP 2
      = emptyStore Dir.AP 2 ∧
    (runGen (generateDV [some [[5, 7]]] 2) emptyStore [0]).1 Dir.DV 1
      = emptyStore Dir.DV 1 := by
  have h := store_key_disjoint [some [[5, 7]]] 1 2 emptyStore
    (updateStore emptyStore Dir.DV 3 [[9]]) 0 [0, 1]
  have h2 := store_key_disjoint [some [[5, 7]]] 1 2 emptyStore
    (updateStore emptyStore Dir.AP 3 [[9]]) 0 [0]
  exact ⟨h.1 _ _ rfl Dir.DV 0 (by decide),
    h.1 _ _ rfl Dir.AP 1 (by decide),
    h.2.1 _ _ rfl Dir.AP 0 (by decide),
    (h.2.2.1 rfl).1,
    (h2.2.2.2.1 rfl).1,
    h.2.2.2.2.1 _ _ rfl Dir.AP 2 (by decide),
    h2.2.2.2.2.2 _ _ rfl Dir.DV 1 (by decide)⟩

/-- C7: Write atomicity on error: an output plane is saved only after
every source plane contributed its slice (a successful generate call
commits exactly the fully assembled plane); if any error (read failure
or shape inconsistency) occurs while assembling index `iz`, nothing is
written: the store comes back unchanged; and an aborted range run ends
in exactly the state its successful prefix produced, so output indices
persisted before the error are intact. -/
theorem write_atomicity (src : List (Option Plane)) (ny nx : Nat)
    (store : Store) (iz : Nat) (L : List Nat) :
    (∀ s2 e, generateAP src ny store iz = (s2, some e) → s2 = store) ∧
    (∀ s2, generateAP src ny store iz = (s2, none) → ∃ out,
      assembleAP iz 0 src (apInit (store Dir.AP iz) ny src.length)
        = .ok out ∧ s2 = updateStore store Dir.AP iz out) ∧
    (∀ s2 e, generateDV src nx store iz = (s2, some e) → s2 = store) ∧
    (∀ s2, generateDV src nx store iz = (s2, none) → ∃ out,
      assembleDV iz 0 src (dvInit (store Dir.DV iz) nx src.length)
        = .ok out ∧ s2 = updateStore store Dir.DV iz out) ∧
    (∀ s2 e, runGen (generateAP src ny) store L = (s2, some e) →
      ∃ L1 j L2, L = L1 ++ j :: L2 ∧
        runGen (generateAP src ny) store L1 = (s2, none) ∧
        generateAP src ny s2 j = (s2, some e)) ∧
    (∀ s2 e, runGen (generateDV src nx) store L = (s2, some e) →
      ∃ L1 j L2, L = L1 ++ j :: L2 ∧
        runGen (generateDV src nx) store L1 = (s2, none) ∧
        generateDV src nx s2 j = (s2, some e)) := by
  refine ⟨?_, ?_, ?_, ?_, ?_, ?_⟩
  · intro s2 e hg
    exact (generateAP_err_inv hg).1
  · intro s2 hg
    rcases generateAP_ok_inv hg with ⟨out, hasm, hs2⟩
    exact ⟨out, hasm, hs2⟩
  · intro s2 e hg
    exact (generateDV_err_inv hg).1
  · intro s2 hg
    rcases generateDV_ok_inv hg with ⟨out, hasm, hs2⟩
    exact ⟨out, hasm, hs2⟩
  · intro s2 e hg
    rcases runGen_err_split (generateAP src ny) L store s2 e hg
      with ⟨L1, j, L2, t, hsplit, hpre, hstep⟩
    have ht : s2 = t := (generateAP_err_inv hstep).1
    subst ht
    exact ⟨L1, j, L2, hsplit, hpre, hstep⟩
  · intro s2 e hg
    rcases runGen_err_split (generateDV src nx) L store s2 e hg
      with ⟨L1, j, L2, t, hsplit, hpre, hstep⟩
    have ht : s2 = t := (generateDV_err_inv hstep).1
    subst ht
    exact ⟨L1, j, L2, hsplit, hpre, hstep⟩

theorem write_atomicity_witness :
    ((generateAP [some [[5, 7]], none] 1 emptyStore 0).1 = emptyStore ∧
      (generateDV [some [[5, 7]], none] 2 emptyStore 0).1 = emptyStore) ∧
    (∃ out, assembleAP 0 0 [some [[5, 7]]]
        (apInit (emptyStore Dir.AP 0) 1 1) = .ok out ∧
      (generateAP [some [[5, 7]]] 1 emptyStore 0).1
        = updateStore emptyStore Dir.AP 0 out) ∧
    (∃ L1 j L2, ([0] : List Nat) = L1 ++ j :: L2 ∧
      runGen (generateAP [some [[5, 7]], none] 1) emptyStore L1
        = ((runGen (generateAP [some [[5, 7]], none] 1) emptyStore [0]).1,
          none) ∧
      generateAP [some [[5, 7]], none] 1
          (runGen (generateAP [some [[5, 7]], none] 1) emptyStore [0]).1 j
        = ((runGen (generateAP [some [[5, 7]], none] 1) emptyStore [0]).1,
          some (Err.readFail 1))) := by
  have hbad := write_atomicity [some [[5, 7]], none] 1 2 emptyStore 0 [0]
  have hok := write_atomicity [some [[5, 7]]] 1 2 emptyStore 0 [0]
  refine ⟨⟨hbad.1 _ (Err.readFail 1) rfl, hbad.2.2.1 _ (Err.readFail 1) rfl⟩,
    ?_, ?_⟩
  · rcases hok.2.1 _ rfl with ⟨out, hasm, hs2⟩
    exact ⟨out, hasm, hs2⟩
  · exact hbad.2.2.2.2.1 _ (Err.readFail 1) rfl

/-- C4 counterexample: for the request `(-3, -1)` against an AP volume
with maxIz = 1, the code clamps only the start up to 0 and leaves the
end at -1, so the loop is empty and nothing is written; a run over the
range with BOTH endpoints clamped into `[0, maxIz]` (the claim's
reading) runs index 0 and writes a plane there. The two behaviors
differ, so the claim as stated is false. -/
theorem range_clamp_counterexample :
    (runAP [some [[5, 7]]] 1 2 emptyStore (-3) (-1)).1 Dir.AP 0 = none ∧
    (claimRunAP [some [[5, 7]]] 1 2 emptyStore (-3) (-1)).1 Dir.AP 0
      = some [[5]] ∧
    runAP [some [[5, 7]]] 1 2 emptyStore (-3) (-1)
      ≠ claimRunAP [some [[5, 7]]] 1 2 emptyStore (-3) (-1) := by
  refine ⟨rfl, rfl, fun hcon => ?_⟩
  have h1 := congrArg (fun p => p.1 Dir.AP 0) hcon
  exact absurd h1 (by decide)

/-- C4 (amended): for either direction the run first swaps the
endpoints if inverted. When the requested range intersects
`[0, maxIz]` (and `maxIz ≥ 0`; `maxIz = nx - 1` for AP, `ny - 1` for
DV), it then behaves identically to the run over the range with both
endpoints clamped into `[0, maxIz]`; a range lying entirely below 0 or
entirely above maxIz instead yields an empty loop — no plane is
written and no error is raised. -/
theorem range_clamp_amended (src : List (Option Plane)) (ny nx : Nat)
    (store : Store) (starti endi : Int) :
    (min starti endi ≤ (nx : Int) - 1 → 0 ≤ max starti endi →
      0 ≤ (nx : Int) - 1 →
      runAP src ny nx store starti endi
        = claimRunAP src ny nx store starti endi) ∧
    (max starti endi < 0 ∨ (nx : Int) - 1 < min starti endi →
      runAP src ny nx store starti endi = (store, none)) ∧
    (min starti endi ≤ (ny : Int) - 1 → 0 ≤ max starti endi →
      0 ≤ (ny : Int) - 1 →
      runDV src ny nx store starti endi
        = claimRunDV src ny nx store starti endi) ∧
    (max starti endi < 0 ∨ (ny : Int) - 1 < min starti endi →
      runDV src ny nx store starti endi = (store, none)) := by
  refine ⟨?_, ?_, ?_, ?_⟩
  · intro h1 h2 h3
    rw [runAP_eq, claimRunAP_eq]
    simp only [swapRange_eq, clampLow_eq, clampHigh_eq]
    rw [show max 0 (min starti endi)
        = claimClampBoth (min starti endi) ((nx : Int) - 1) by
      unfold claimClampBoth; omega]
    rw [show min (max starti endi) ((nx : Int) - 1)
        = claimClampBoth (max starti endi) ((nx : Int) - 1) by
      unfold claimClampBoth; omega]
  · intro hcase
    rw [runAP_eq]
    simp only [swapRange_eq, clampLow_eq, clampHigh_eq]
    rw [rangeList_nil (by omega)]
    rfl
  · intro h1 h2 h3
    rw [runDV_eq, claimRunDV_eq]
    simp only [swapRange_eq, clampLow_eq, clampHigh_eq]
    rw [show max 0 (min starti endi)
        = claimClampBoth (min starti endi) ((ny : Int) - 1) by
      unfold claimClampBoth; omega]
    rw [show min (max starti endi) ((ny : Int) - 1)
        = claimClampBoth (max starti endi) ((ny : Int) - 1) by
      unfold claimClampBoth; omega]
  · intro hcase
    rw [runDV_eq]
    simp only [swapRange_eq, clampLow_eq, clampHigh_eq]
    rw [rangeList_nil (by omega)]
    rfl

theorem range_clamp_amended_witness :
    (min (-5 : Int) 0 ≤ ((2 : Nat) : Int) - 1 ∧ (0 : Int) ≤ max (-5) 0 ∧
      (0 : Int) ≤ ((2 : Nat) : Int) - 1 ∧
      runAP [some [[5, 7]]] 1 2 emptyStore (-5) 0
        = claimRunAP [some [[5, 7]]] 1 2 emptyStore (-5) 0) ∧
    (max (-3 : Int) (-1) < 0 ∧
      runAP [some [[5, 7]]] 1 2 emptyStore (-3) (-1) = (emptyStore, none)) ∧
    (min (-5 : Int) 0 ≤ ((1 : Nat) : Int) - 1 ∧ (0 : Int) ≤ max (-5) 0 ∧
      (0 : Int) ≤ ((1 : Nat) : Int) - 1 ∧
      runDV [some [[5, 7]]] 1 2 emptyStore (-5) 0
        = claimRunDV [some [[5, 7]]] 1 2 emptyStore (-5) 0) ∧
    (max (-3 : Int) (-1) < 0 ∧
      runDV [some [[5, 7]]] 1 2 emptyStore (-3) (-1) = (emptyStore, none)) :=
  ⟨⟨by decide, by decide, by decide,
    (range_clamp_amended [some [[5, 7]]] 1 2 emptyStore (-5) 0).1
      (by decide) (by decide) (by decide)⟩,
  ⟨by decide,
    (range_clamp_amended [some [[5, 7]]] 1 2 emptyStore (-3) (-1)).2.1
      (Or.inl (by decide))⟩,
  ⟨by decide, by decide, by decide,
    (range_clamp_amended [some [[5, 7]]] 1 2 emptyStore (-5) 0).2.2.1
      (by decide) (by decide) (by decide)⟩,
  ⟨by decide,
    (range_clamp_amended [some [[5, 7]]] 1 2 emptyStore (-3) (-1)).2.2.2
      (Or.inl (by decide))⟩⟩

/-! ## Helper lemmas: the filter regex and the serial regex -/

lemma dotTifHere_shape : ∀ l : List Char, dotTifHere l = true →
    ∃ t, l = '.' :: t := by
  intro l h
  unfold dotTifHere at h
  split at h
  · rename_i t i f rest
    exact ⟨t :: i :: f :: rest, rfl⟩
  · exact absurd h (by simp)

/-- If `\d+[.][tT][iI][fF]` matches somewhere in `s`, then the serial
regex `(\d+)[.]` has a match, so `findSerial` succeeds. -/
lemma hasTif_findSerial : ∀ s : List Char, hasTifPattern s = true →
    ∃ n, findSerial s = some n := by
  intro s
  induction s with
  | nil =>
    intro h
    exact absurd h (by simp [hasTifPattern])
  | cons c rest ih =>
    intro h
    rw [show hasTifPattern (c :: rest)
        = ((c.isDigit && dotTifHere (rest.dropWhile Char.isDigit))
          || hasTifPattern rest) from rfl,
      Bool.or_eq_true, Bool.and_eq_true] at h
    rw [show findSerial (c :: rest)
        = (if c.isDigit = true then
            match rest.dropWhile Char.isDigit with
            | '.' :: _ => some (digitsVal (c :: rest.takeWhile Char.isDigit))
            | _ => findSerial rest
          else findSerial rest) from rfl]
    by_cases hd : c.isDigit = true
    · rw [if_pos hd]
      split
      · exact ⟨_, rfl⟩
      · rename_i hne
        rcases h with ⟨_, hdot⟩ | hrest
        · rcases dotTifHere_shape _ hdot with ⟨t2, ht2⟩
          exact absurd ht2 (hne t2)
        · exact ih hrest
    · rw [if_neg hd]
      rcases h with ⟨hd2, _⟩ | hrest
      · exact absurd hd2 hd
      · exact ih hrest

/-- C9: the string-fallback branch of catchSerial is dead for this
program: every identifier admitted by the img_list filter (digits
immediately before .tif, any case) contains a digit run followed by a
dot, so catchSerial returns a numeric key for every element of the
sorted source listing. -/
theorem filter_implies_numeric_key (names : List (List Char)) (s : List Char)
    (hs : s ∈ imgListOf names) : ∃ n, catchSerial s = Sum.inl n := by
  have hmem : s ∈ imgFilter names :=
    (List.perm_insertionSort
      (fun a b => pyKeyLe (catchSerial a) (catchSerial b) = true)
      (imgFilter names)).mem_iff.mp hs
  have hpat : hasTifPattern s = true := List.of_mem_filter hmem
  rcases hasTif_findSerial s hpat with ⟨n, hn⟩
  refine ⟨n, ?_⟩
  unfold catchSerial
  rw [hn]

theorem filter_implies_numeric_key_witness :
    ("img7.tif").toList ∈ imgListOf [("img7.tif").toList] ∧
    ∃ n, catchSerial ("img7.tif").toList = Sum.inl n :=
  ⟨by decide,
    filter_implies_numeric_key [("img7.tif").toList] ("img7.tif").toList
      (by decide)⟩

/-- C5 counterexample: both names pass the listing filter; img_list
sorts "9x2.tif" before "3x5.tif" (catchSerial takes the integers 2 and
5, the ones immediately before the dot), while the first integers found
in the names (9 and 3) order them the other way: the stack order is not
given by the numeric value of the first integer found in each name. -/
theorem sort_key_counterexample :
    sortImgs [("9x2.tif").toList, ("3x5.tif").toList]
      = [("9x2.tif").toList, ("3x5.tif").toList] ∧
    hasTifPattern ("9x2.tif").toList = true ∧
    hasTifPattern ("3x5.tif").toList = true ∧
    claimFirstIntKey ("9x2.tif").toList = Sum.inl 9 ∧
    claimFirstIntKey ("3x5.tif").toList = Sum.inl 3 ∧
    pyKeyLe (claimFirstIntKey ("9x2.tif").toList)
      (claimFirstIntKey ("3x5.tif").toList) = false := by
  refine ⟨by decide, by decide, by decide, by decide, by decide, by decide⟩

/-- C5 (amended): the source stack is sorted by the catchSerial key:
the numeric value of the first integer immediately followed by a dot in
the identifier's name (numeric order, not lexical); an identifier with
no such integer keeps its raw identifier value as the key, every
numeric key ordering before every string key (Python 2 int < str); the
sorted stack is a pairwise-ordered permutation of the filtered
listing. -/
theorem sort_key_amended (names : List (List Char)) :
    (imgListOf names).Pairwise
      (fun a b => pyKeyLe (catchSerial a) (catchSerial b) = true) ∧
    (imgListOf names).Perm (imgFilter names) := by
  constructor
  · haveI : IsTotal (List Char)
        (fun a b => pyKeyLe (catchSerial a) (catchSerial b) = true) :=
      ⟨fun a b => pyKeyLe_total _ _⟩
    haveI : IsTrans (List Char)
        (fun a b => pyKeyLe (catchSerial a) (catchSerial b) = true) :=
      ⟨fun a b c => pyKeyLe_trans _ _ _⟩
    exact List.sorted_insertionSort _ _
  · exact List.perm_insertionSort _ _
